import Mathlib

set_option maxRecDepth 100000

/-!
Shallow embedding of the `litellm_observatory` core: the bounded-concurrency
test queue with duplicate detection (`litellm_observatory/queue.py`), the
submission boundary (`litellm_observatory/server.py`), and the statistics of
the probe runners (`test_suites/test_oai_azure_release.py`,
`test_suites/test_access_group_perf.py`).

Python `dict`s (insertion-ordered, unique keys) are modelled as association
lists; `datetime` timestamps as natural numbers; `float` parameters and
durations as rationals; the asyncio semaphore as its integer counter.
-/

namespace Observatory

/-- Python dict `d[k] = v`: overwrite in place if the key is present
(keeping its position), otherwise append at the end.  Matches the
insertion-order semantics of Python 3.7+ dicts. -/
def dictInsert {α : Type} : List (String × α) → String → α → List (String × α)
  | [], k, v => [(k, v)]
  | (k₀, v₀) :: rest, k, v =>
      if k₀ = k then (k, v) :: rest else (k₀, v₀) :: dictInsert rest k v

/-- Python dict `d.pop(k, None)`: drop the entry with key `k` (association
lists built by `dictInsert` from a unique-key list have at most one). -/
def dictPop {α : Type} (d : List (String × α)) (k : String) : List (String × α) :=
  d.filter (fun p => p.1 ≠ k)

/-- Python dict `d[k]` / `k in d`: first (only) entry with key `k`. -/
def dictGet {α : Type} (d : List (String × α)) (k : String) : Option α :=
  (d.find? (fun p => p.1 = k)).map (·.2)

/-- The keys of the dict, in insertion order. -/
def dkeys {α : Type} (d : List (String × α)) : List String :=
  d.map Prod.fst

/-- `min(d.keys(), key=...)`: the first key attaining the minimal measure,
iterating in insertion order (Python `min` keeps the earliest minimum). -/
def minKeyBy {α : Type} (d : List (String × α)) (f : α → ℕ) : Option String :=
  match d with
  | [] => none
  | p :: rest =>
      some ((rest.foldl (fun best q => if f q.2 < f best.2 then q else best) p).1)

/-! ### Basic dictionary lemmas -/

theorem dkeys_dictInsert {α : Type} (d : List (String × α)) (k : String) (v : α) :
    dkeys (dictInsert d k v) = if k ∈ dkeys d then dkeys d else dkeys d ++ [k] := by
  induction d with
  | nil => simp [dictInsert, dkeys]
  | cons p rest ih =>
      obtain ⟨k₀, v₀⟩ := p
      by_cases h : k₀ = k
      · subst h
        simp [dictInsert, dkeys]
      · simp only [dictInsert, if_neg h, dkeys, List.map_cons, List.mem_cons]
        rw [show (dkeys (dictInsert rest k v) = List.map Prod.fst (dictInsert rest k v)) from rfl] at ih
        by_cases hm : k ∈ dkeys rest
        · simp only [dkeys] at hm
          rw [ih]
          simp [dkeys, hm]
        · simp only [dkeys] at hm
          rw [ih]
          simp [dkeys, hm, Ne.symm h]

theorem nodup_dkeys_dictInsert {α : Type} {d : List (String × α)} (k : String) (v : α)
    (h : (dkeys d).Nodup) : (dkeys (dictInsert d k v)).Nodup := by
  rw [dkeys_dictInsert]
  by_cases hm : k ∈ dkeys d
  · simpa [hm] using h
  · simp only [hm, if_false]
    simpa [List.nodup_append] using ⟨h, hm⟩

theorem nodup_dkeys_dictPop {α : Type} {d : List (String × α)} (k : String)
    (h : (dkeys d).Nodup) : (dkeys (dictPop d k)).Nodup :=
  (((List.filter_sublist d).map Prod.fst).nodup h)

theorem length_dictInsert {α : Type} (d : List (String × α)) (k : String) (v : α) :
    (dictInsert d k v).length = if k ∈ dkeys d then d.length else d.length + 1 := by
  have h := congrArg List.length (dkeys_dictInsert d k v)
  simp only [dkeys, List.length_map] at h
  rw [h]
  by_cases hm : k ∈ dkeys d <;> simp [dkeys, hm] at * <;> simp [hm]

theorem dictInsert_of_not_mem {α : Type} {d : List (String × α)} {k : String} (v : α)
    (h : k ∉ dkeys d) : dictInsert d k v = d ++ [(k, v)] := by
  induction d with
  | nil => simp [dictInsert]
  | cons p rest ih =>
      obtain ⟨k₀, v₀⟩ := p
      simp only [dkeys, List.map_cons, List.mem_cons, not_or] at h
      simp only [dictInsert, if_neg (fun hh : k₀ = k => h.1 hh.symm), List.cons_append]
      exact congrArg _ (ih (by simpa [dkeys] using h.2))

theorem length_dictPop_of_mem {α : Type} {d : List (String × α)} {k : String}
    (hnd : (dkeys d).Nodup) (hmem : k ∈ dkeys d) :
    (dictPop d k).length = d.length - 1 := by
  induction d with
  | nil => simp [dkeys] at hmem
  | cons p rest ih =>
      simp only [dkeys, List.map_cons, List.nodup_cons] at hnd
      by_cases hpk : p.1 = k
      · have hpop : dictPop rest k = rest := by
          refine List.filter_eq_self.mpr (fun q hq => ?_)
          have hq1 : q.1 ≠ k := by
            intro hqk
            exact hnd.1 (by
              have : q.1 ∈ List.map Prod.fst rest := List.mem_map_of_mem Prod.fst hq
              rwa [hqk, ← hpk] at this)
          simpa using hq1
        have hdrop : dictPop (p :: rest) k = dictPop rest k := by
          simp [dictPop, List.filter_cons, hpk]
        rw [hdrop, hpop]
        simp
      · have hrest : k ∈ dkeys rest := by
          have : k = p.1 ∨ k ∈ List.map Prod.fst rest := by
            simpa [dkeys] using hmem
          rcases this with h | h
          · exact absurd h.symm hpk
          · simpa [dkeys] using h
        have hlen := ih hnd.2 hrest
        have hpos : 0 < rest.length := by
          cases rest with
          | nil => simp [dkeys] at hrest
          | cons q t => simp
        have hcons : dictPop (p :: rest) k = p :: dictPop rest k := by
          simp [dictPop, List.filter_cons, hpk]
        rw [hcons]
        simp only [List.length_cons, hlen, dictPop] at *
        omega

theorem not_mem_dkeys_dictPop {α : Type} (d : List (String × α)) (k : String) :
    k ∉ dkeys (dictPop d k) := by
  intro hmem
  obtain ⟨p, hp, hpk⟩ := List.mem_map.mp hmem
  have := List.of_mem_filter hp
  simp [hpk] at this

/-! ## Data model (`litellm_observatory/models.py`, `queue.py`)

`RunTestRequest` is the pydantic request model.  The three optional `float`
tuning knobs are modelled as optional rationals; note the model places no
constraint on `models`, so the empty list is a valid submission. -/

structure RunTestRequest where
  deployment_url : String
  api_key : String
  test_suite : String
  models : List String
  duration_hours : Option ℚ := none
  max_failure_rate : Option ℚ := none
  request_interval_seconds : Option ℚ := none
  deriving DecidableEq, Repr

/-- `TestStatus` enum from `queue.py`. -/
inductive TestStatus where
  | queued
  | running
  | completed
  | failed
  deriving DecidableEq, Repr

/-- The `.value` string of each `TestStatus` member. -/
def statusValue : TestStatus → String
  | .queued => "queued"
  | .running => "running"
  | .completed => "completed"
  | .failed => "failed"

/-- `QueuedTest` dataclass (the `task : Optional[asyncio.Task]` handle carries
no data the registry logic reads, so it is not part of the embedding). -/
structure QueuedTest where
  request : RunTestRequest
  request_id : String
  status : TestStatus := .queued
  queued_at : ℕ := 0
  started_at : Option ℕ := none
  completed_at : Option ℕ := none
  deriving DecidableEq, Repr

/-! ## Fingerprint (`TestQueue._generate_request_id`) -/

/-- Deterministic stand-in for `hashlib.sha256(s.encode()).hexdigest()[:16]`.
The queue logic relies only on the digest being a pure deterministic function
of the serialized parameter string, which this rolling hash is. -/
def sha256_hexdigest16 (s : String) : String :=
  toString (s.data.foldl (fun h c => (h * 131 + c.toNat) % 1000000007) 17)

/-- `sorted(request.models)`: ascending lexicographic sort.  On a linear
order the ascending sort of a list is unique, so a stable insertion sort is
exactly Python's `sorted`. -/
def sortedModels (l : List String) : List String :=
  l.insertionSort (· ≤ ·)

/-- `json.dumps` of a string value (escaping details are irrelevant to the
registry: only determinism and field separation matter). -/
def jsonString (s : String) : String := "\"" ++ s ++ "\""

/-- `json.dumps` of an optional float parameter (`None` ↦ `null`). -/
def jsonOptRat : Option ℚ → String
  | none => "null"
  | some x => toString x

/-- `json.dumps(params, sort_keys=True)`: the canonical serialization of the
normalized parameter set, keys in ascending order, with the model list
sorted ascending. -/
def params_json (r : RunTestRequest) : String :=
  "\x7b\"api_key\": " ++ jsonString r.api_key ++
  ", \"deployment_url\": " ++ jsonString r.deployment_url ++
  ", \"duration_hours\": " ++ jsonOptRat r.duration_hours ++
  ", \"max_failure_rate\": " ++ jsonOptRat r.max_failure_rate ++
  ", \"models\": [" ++ String.intercalate ", " ((sortedModels r.models).map jsonString) ++ "]" ++
  ", \"request_interval_seconds\": " ++ jsonOptRat r.request_interval_seconds ++
  ", \"test_suite\": " ++ jsonString r.test_suite ++ "\x7d"

/-- `TestQueue._generate_request_id`: digest of the canonical serialization. -/
def generate_request_id (r : RunTestRequest) : String :=
  sha256_hexdigest16 (params_json r)

/-! ## TestQueue state (`queue.py`)

`semValue` is the internal counter of `asyncio.Semaphore(max_concurrent_tests)`
(`locked()` means the counter is zero).  `inflight` is the collection of
`_run_test_with_cleanup` tasks that have been spawned by the admission loop
and have not yet finished; each finishes exactly once. -/

structure TestQueue where
  max_concurrent_tests : ℕ
  semValue : ℕ
  queue : List QueuedTest
  running_tests : List (String × QueuedTest)
  queued_tests : List (String × QueuedTest)
  completed_tests : List (String × QueuedTest)
  inflight : List QueuedTest
  deriving DecidableEq, Repr

/-- `TestQueue.__init__(max_concurrent_tests)`. -/
def initQueue (m : ℕ) : TestQueue :=
  { max_concurrent_tests := m
    semValue := m
    queue := []
    running_tests := []
    queued_tests := []
    completed_tests := []
    inflight := [] }

/-- `TestQueue.enqueue`: create the job in `Queued` state at time `now`,
record it in the queued-index and push it on the FIFO queue.  Returns the
new state together with the created `QueuedTest` handle. -/
def enqueue (q : TestQueue) (request : RunTestRequest) (now : ℕ) :
    TestQueue × QueuedTest :=
  let request_id := generate_request_id request
  let t : QueuedTest :=
    { request := request
      request_id := request_id
      status := .queued
      queued_at := now
      started_at := none
      completed_at := none }
  ({ q with
      queued_tests := dictInsert q.queued_tests request_id t
      queue := q.queue ++ [t] },
   t)

/-- `TestQueue.is_duplicate`: a job with the same fingerprint is currently
running or queued. -/
def is_duplicate (q : TestQueue) (request : RunTestRequest) : Bool :=
  let request_id := generate_request_id request
  (dictGet q.running_tests request_id).isSome ||
    (dictGet q.queued_tests request_id).isSome

/-- Shape of the dictionary returned by `TestQueue.get_duplicate_info`:
the running variant carries `started_at`, the queued variant `queued_at`. -/
inductive DuplicateInfo where
  | runningInfo (request_id : String) (status : String) (started_at : Option ℕ)
  | queuedInfo (request_id : String) (status : String) (queued_at : ℕ)
  deriving DecidableEq, Repr

/-- `TestQueue.get_duplicate_info`: checks the running-index first, then the
queued-index. -/
def get_duplicate_info (q : TestQueue) (request : RunTestRequest) :
    Option DuplicateInfo :=
  let request_id := generate_request_id request
  match dictGet q.running_tests request_id with
  | some t => some (.runningInfo request_id (statusValue t.status) t.started_at)
  | none =>
      match dictGet q.queued_tests request_id with
      | some t => some (.queuedInfo request_id (statusValue t.status) t.queued_at)
      | none => none

/-- `TestQueue.get_queue_status` snapshot. -/
structure QueueStatus where
  max_concurrent_tests : ℕ
  currently_running : ℕ
  queued : ℕ
  recently_completed : ℕ
  deriving DecidableEq, Repr

def get_queue_status (q : TestQueue) : QueueStatus :=
  { max_concurrent_tests := q.max_concurrent_tests
    currently_running := q.running_tests.length
    queued := q.queue.length
    recently_completed := q.completed_tests.length }

/-- The eviction measure: `self.completed_tests[k].completed_at or datetime.min`
(`datetime.min` is modelled as timestamp `0`). -/
def completedKey (t : QueuedTest) : ℕ :=
  t.completed_at.getD 0

/-- One normal iteration of `TestQueue._process_queue`: pull the head of the
FIFO queue, take a permit, mark the job `Running`, stamp `started_at`, move
it from the queued-index to the running-index, and spawn its
`_run_test_with_cleanup` task (tracked in `inflight`).  Only meaningful when
the queue is non-empty and a permit is available (`semValue > 0`); otherwise
the coroutine would suspend instead. -/
def process_queue_admission (q : TestQueue) (now : ℕ) : TestQueue :=
  match q.queue with
  | [] => q
  | t :: rest =>
      let t' : QueuedTest := { t with status := .running, started_at := some now }
      { q with
          queue := rest
          semValue := q.semValue - 1
          running_tests := dictInsert q.running_tests t.request_id t'
          queued_tests := dictPop q.queued_tests t.request_id
          inflight := q.inflight ++ [t'] }

/-- `TestQueue._run_test_with_cleanup` applied to the job object `t`: on both
exit paths of the runner (`success` tells which) the job's terminal status is
set, `completed_at` is stamped, the job is removed from the running-index and
inserted into the bounded completed-history (evicting the entry with the
smallest `completed_at` when the capacity of 100 is exceeded), and the
semaphore permit is released. -/
def run_test_with_cleanup (q : TestQueue) (t : QueuedTest) (success : Bool)
    (now : ℕ) : TestQueue :=
  let t' : QueuedTest :=
    { t with
        status := if success then TestStatus.completed else TestStatus.failed
        completed_at := some now }
  let inserted := dictInsert q.completed_tests t.request_id t'
  let completed :=
    if 100 < inserted.length then
      match minKeyBy inserted completedKey with
      | some oldest => dictPop inserted oldest
      | none => inserted
    else inserted
  { q with
      running_tests := dictPop q.running_tests t.request_id
      completed_tests := completed
      semValue := q.semValue + 1 }

/-- A spawned `_run_test_with_cleanup` task finishing: the cleanup runs and
the task leaves the in-flight collection. -/
def finishTask (q : TestQueue) (t : QueuedTest) (success : Bool) (now : ℕ) :
    TestQueue :=
  { run_test_with_cleanup q t success now with inflight := q.inflight.erase t }

/-- One iteration of `TestQueue._process_queue` in which the body raises a
non-cancellation exception right after the permit is acquired: the
`except Exception` branch marks the pulled job `Failed`, stamps
`completed_at`, pops it from the queued-index, and — this is the
`if self.semaphore.locked(): self.semaphore.release()` guard — puts the
permit back only when the counter has reached zero.  Returns the new state
and the mutated job object (which at this point is referenced only by the
caller of `enqueue`). -/
def process_queue_exception_step (q : TestQueue) (now : ℕ) :
    TestQueue × Option QueuedTest :=
  match q.queue with
  | [] => (q, none)
  | t :: rest =>
      let semAfterAcquire := q.semValue - 1
      let failed : QueuedTest :=
        { t with status := .failed, completed_at := some now }
      let semFinal :=
        if semAfterAcquire = 0 then semAfterAcquire + 1 else semAfterAcquire
      ({ q with
          queue := rest
          semValue := semFinal
          queued_tests := dictPop q.queued_tests t.request_id },
       some failed)

/-! ### Lemmas about the eviction minimum -/

theorem foldl_min_spec {α : Type} (f : α → ℕ) :
    ∀ (l : List (String × α)) (acc : String × α),
      (l.foldl (fun best q => if f q.2 < f best.2 then q else best) acc = acc ∨
        l.foldl (fun best q => if f q.2 < f best.2 then q else best) acc ∈ l) ∧
      f (l.foldl (fun best q => if f q.2 < f best.2 then q else best) acc).2 ≤ f acc.2 ∧
      ∀ x ∈ l, f (l.foldl (fun best q => if f q.2 < f best.2 then q else best) acc).2 ≤ f x.2 := by
  intro l
  induction l with
  | nil => intro acc; simp
  | cons y rest ih =>
      intro acc
      simp only [List.foldl_cons]
      set acc' := if f y.2 < f acc.2 then y else acc with hacc'
      obtain ⟨hmem, hle, hall⟩ := ih acc'
      have hacc'le : f acc'.2 ≤ f acc.2 := by
        rw [hacc']
        by_cases hy : f y.2 < f acc.2
        · simpa [hy] using le_of_lt hy
        · simp [hy]
      have hacc'y : f acc'.2 ≤ f y.2 := by
        rw [hacc']
        by_cases hy : f y.2 < f acc.2
        · simp [hy]
        · simpa [hy] using le_of_not_lt hy
      refine ⟨?_, le_trans hle hacc'le, ?_⟩
      · rcases hmem with h | h
        · rw [h, hacc']
          by_cases hy : f y.2 < f acc.2
          · simp [hy]
          · simp [hy]
        · right; exact List.mem_cons_of_mem _ h
      · intro x hx
        rcases List.mem_cons.mp hx with rfl | hx
        · exact le_trans hle hacc'y
        · exact hall x hx

theorem minKeyBy_spec {α : Type} {d : List (String × α)} (f : α → ℕ) (h : d ≠ []) :
    ∃ p ∈ d, minKeyBy d f = some p.1 ∧ ∀ x ∈ d, f p.2 ≤ f x.2 := by
  match d with
  | [] => exact absurd rfl h
  | p :: rest =>
      obtain ⟨hmem, hle, hall⟩ := foldl_min_spec f rest p
      have hdef : minKeyBy (p :: rest) f =
          some ((rest.foldl (fun best q => if f q.2 < f best.2 then q else best) p).1) := rfl
      refine ⟨rest.foldl (fun best q => if f q.2 < f best.2 then q else best) p, ?_, hdef, ?_⟩
      · rcases hmem with h | h
        · rw [h]; exact List.mem_cons_self _ _
        · exact List.mem_cons_of_mem _ h
      · intro x hx
        rcases List.mem_cons.mp hx with rfl | hx
        · exact hle
        · exact hall x hx

/-- When every existing measure is at most the appended one and ties are
broken toward the front, the minimum of `d ++ [(k, v)]` is found in `d`
(Python `min` keeps the earliest element attaining the minimum). -/
theorem minKeyBy_append_of_le {α : Type} {d : List (String × α)} {k : String} {v : α}
    (f : α → ℕ) (hne : d ≠ []) (hle : ∀ x ∈ d, f x.2 ≤ f v) :
    ∃ p ∈ d, minKeyBy (d ++ [(k, v)]) f = some p.1 := by
  match d with
  | p :: rest =>
      obtain ⟨hmem, hlep, hall⟩ := foldl_min_spec f rest p
      set r := rest.foldl (fun best q => if f q.2 < f best.2 then q else best) p with hr
      have hrmem : r ∈ p :: rest := by
        rcases hmem with h | h
        · rw [h]; exact List.mem_cons_self _ _
        · exact List.mem_cons_of_mem _ h
      have hrv : f r.2 ≤ f v := hle r hrmem
      refine ⟨r, hrmem, ?_⟩
      simp only [minKeyBy, List.cons_append, List.foldl_append, List.foldl_cons,
        List.foldl_nil, ← hr]
      rw [if_neg (not_lt.mpr hrv)]

/-! ## Normal-operation transition system

The events of the scheduler during normal operation: a submission
(`enqueue`), an admission iteration of `_process_queue`, and the completion
of a spawned `_run_test_with_cleanup` task. -/

inductive Step : TestQueue → TestQueue → Prop where
  | enqueueStep (q : TestQueue) (request : RunTestRequest) (now : ℕ) :
      Step q (enqueue q request now).1
  | admitStep (q : TestQueue) (now : ℕ) (hq : q.queue ≠ []) (hs : q.semValue ≠ 0) :
      Step q (process_queue_admission q now)
  | finishStep (q : TestQueue) (t : QueuedTest) (success : Bool) (now : ℕ)
      (ht : t ∈ q.inflight) :
      Step q (finishTask q t success now)

/-- States reachable from a freshly initialized queue by any sequence of
submissions, admissions and job completions. -/
inductive Reachable (m : ℕ) : TestQueue → Prop where
  | init : Reachable m (initQueue m)
  | step {q q' : TestQueue} : Reachable m q → Step q q' → Reachable m q'

/-- The inductive invariant of the queue: the semaphore counter plus the
number of in-flight cleanup tasks equals the ceiling; the indices have
unique keys; every running key belongs to an in-flight task; the
completed-history is bounded. -/
structure Inv (q : TestQueue) : Prop where
  sem_inflight : q.semValue + q.inflight.length = q.max_concurrent_tests
  running_nodup : (dkeys q.running_tests).Nodup
  running_sub : ∀ k ∈ dkeys q.running_tests, k ∈ q.inflight.map QueuedTest.request_id
  completed_nodup : (dkeys q.completed_tests).Nodup
  completed_le : q.completed_tests.length ≤ 100
  queued_nodup : (dkeys q.queued_tests).Nodup

theorem inv_init (m : ℕ) : Inv (initQueue m) := by
  constructor <;> simp [initQueue, dkeys]

theorem inv_enqueue {q : TestQueue} (h : Inv q) (request : RunTestRequest) (now : ℕ) :
    Inv (enqueue q request now).1 := by
  obtain ⟨h1, h2, h3, h4, h5, h6⟩ := h
  exact ⟨h1, h2, h3, h4, h5, nodup_dkeys_dictInsert _ _ h6⟩

theorem inv_admission {q : TestQueue} (h : Inv q) (now : ℕ) (hs : q.semValue ≠ 0) :
    Inv (process_queue_admission q now) := by
  obtain ⟨h1, h2, h3, h4, h5, h6⟩ := h
  match hq : q.queue with
  | [] => simpa [process_queue_admission, hq] using ⟨h1, h2, h3, h4, h5, h6⟩
  | t :: rest =>
      simp only [process_queue_admission, hq]
      constructor
      · simp only [List.length_append, List.length_cons, List.length_nil]
        omega
      · exact nodup_dkeys_dictInsert _ _ h2
      · intro k hk
        rw [dkeys_dictInsert] at hk
        by_cases hmem : t.request_id ∈ dkeys q.running_tests
        · rw [if_pos hmem] at hk
          have := h3 k hk
          simpa [List.map_append] using Or.inl this
        · rw [if_neg hmem] at hk
          rcases List.mem_append.mp hk with hk | hk
          · have := h3 k hk
            simpa [List.map_append] using Or.inl this
          · have hkt : k = t.request_id := by simpa using hk
            simp [List.map_append, hkt]
      · exact h4
      · exact h5
      · exact nodup_dkeys_dictPop _ h6

theorem inv_finish {q : TestQueue} (h : Inv q) (t : QueuedTest) (success : Bool)
    (now : ℕ) (ht : t ∈ q.inflight) : Inv (finishTask q t success now) := by
  obtain ⟨h1, h2, h3, h4, h5, h6⟩ := h
  have herase : (q.inflight.erase t).length = q.inflight.length - 1 :=
    List.length_erase_of_mem ht
  have hpos : 0 < q.inflight.length := List.length_pos.mpr (fun he => by simp [he] at ht)
  constructor
  · simp only [finishTask, run_test_with_cleanup, herase]
    omega
  · exact nodup_dkeys_dictPop _ h2
  · intro k hk
    simp only [finishTask, run_test_with_cleanup] at hk
    obtain ⟨p, hp, hpk⟩ := List.mem_map.mp hk
    have hpne : p.1 ≠ t.request_id := by simpa using List.of_mem_filter hp
    have hpmem : p ∈ q.running_tests := List.mem_of_mem_filter hp
    have hkrun : k ∈ dkeys q.running_tests := hpk ▸ List.mem_map_of_mem Prod.fst hpmem
    obtain ⟨u, hu, huk⟩ := List.mem_map.mp (h3 k hkrun)
    have hune : u ≠ t := fun he => (hpk ▸ hpne) (by rw [← huk, he])
    simp only [finishTask]
    exact huk ▸ List.mem_map_of_mem QueuedTest.request_id ((List.mem_erase_of_ne hune).mpr hu)
  · simp only [finishTask, run_test_with_cleanup]
    have hins : (dkeys (dictInsert q.completed_tests t.request_id
        { t with status := if success then TestStatus.completed else TestStatus.failed,
                 completed_at := some now })).Nodup :=
      nodup_dkeys_dictInsert _ _ h4
    by_cases hlen : 100 <
        (dictInsert q.completed_tests t.request_id
          { t with status := if success then TestStatus.completed else TestStatus.failed,
                   completed_at := some now }).length
    · rw [if_pos hlen]
      have hne : dictInsert q.completed_tests t.request_id
          { t with status := if success then TestStatus.completed else TestStatus.failed,
                   completed_at := some now } ≠ [] := by
        intro he
        rw [he] at hlen
        simp at hlen
      obtain ⟨p, hp, heq, -⟩ := minKeyBy_spec completedKey hne
      rw [heq]
      exact nodup_dkeys_dictPop _ hins
    · rw [if_neg hlen]
      exact hins
  · simp only [finishTask, run_test_with_cleanup]
    have hinslen : (dictInsert q.completed_tests t.request_id
        { t with status := if success then TestStatus.completed else TestStatus.failed,
                 completed_at := some now }).length ≤ q.completed_tests.length + 1 := by
      rw [length_dictInsert]
      by_cases hmem : t.request_id ∈ dkeys q.completed_tests <;> simp [hmem]
    by_cases hlen : 100 <
        (dictInsert q.completed_tests t.request_id
          { t with status := if success then TestStatus.completed else TestStatus.failed,
                   completed_at := some now }).length
    · rw [if_pos hlen]
      have hne : dictInsert q.completed_tests t.request_id
          { t with status := if success then TestStatus.completed else TestStatus.failed,
                   completed_at := some now } ≠ [] := by
        intro he
        rw [he] at hlen
        simp at hlen
      obtain ⟨p, hp, heq, -⟩ := minKeyBy_spec completedKey hne
      rw [heq]
      have hkmem : p.1 ∈ dkeys (dictInsert q.completed_tests t.request_id
          { t with status := if success then TestStatus.completed else TestStatus.failed,
                   completed_at := some now }) := List.mem_map_of_mem Prod.fst hp
      rw [length_dictPop_of_mem (nodup_dkeys_dictInsert _ _ h4) hkmem]
      omega
    · rw [if_neg hlen]
      omega
  · exact h6

theorem inv_step {q q' : TestQueue} (h : Inv q) (hs : Step q q') : Inv q' := by
  cases hs with
  | enqueueStep request now => exact inv_enqueue h request now
  | admitStep now hq hsem => exact inv_admission h now hsem
  | finishStep t success now ht => exact inv_finish h t success now ht

theorem reachable_inv {m : ℕ} {q : TestQueue} (h : Reachable m q) : Inv q := by
  induction h with
  | init => exact inv_init m
  | step _ hs ih => exact inv_step ih hs


/-! ## Concrete sample data used by the closed witness statements -/

def sampleRequest : RunTestRequest :=
  { deployment_url := "https://test-deployment.com"
    api_key := "sk-test-key"
    test_suite := "TestOAIAzureRelease"
    models := ["gpt-4"] }

def sampleRequestB : RunTestRequest :=
  { deployment_url := "https://different-deployment.com"
    api_key := "sk-different-key"
    test_suite := "TestOAIAzureRelease"
    models := ["gpt-3.5-turbo"] }

/-! ## Claim C1 -/

/-- Claim C1: for every sequence of submissions, admissions and job
completions — including sequences submitting more jobs than the ceiling —
the number of entries of the running-index never exceeds the configured
concurrency ceiling `max_concurrent_tests`. -/
theorem running_count_never_exceeds_ceiling {m : ℕ} {q : TestQueue}
    (h : Reachable m q) :
    q.running_tests.length ≤ q.max_concurrent_tests := by
  obtain ⟨h1, h2, h3, -, -, -⟩ := reachable_inv h
  have hlen : q.running_tests.length = (dkeys q.running_tests).length := by
    simp [dkeys]
  have hsp : List.Subperm (dkeys q.running_tests) (q.inflight.map QueuedTest.request_id) :=
    List.subperm_of_subset h2 h3
  have hle := hsp.length_le
  rw [List.length_map] at hle
  omega

/-- Witness for C1: a concrete trace — ceiling 2, two submissions, one
admission — reaches a state whose running-index the theorem bounds. -/
theorem running_count_never_exceeds_ceiling_witness :
    (process_queue_admission
        (enqueue (enqueue (initQueue 2) sampleRequest 0).1 sampleRequestB 1).1
        2).running_tests.length ≤
      (process_queue_admission
        (enqueue (enqueue (initQueue 2) sampleRequest 0).1 sampleRequestB 1).1
        2).max_concurrent_tests :=
  running_count_never_exceeds_ceiling
    (Reachable.step
      (Reachable.step
        (Reachable.step Reachable.init
          (Step.enqueueStep (initQueue 2) sampleRequest 0))
        (Step.enqueueStep (enqueue (initQueue 2) sampleRequest 0).1 sampleRequestB 1))
      (Step.admitStep _ 2
        (by simp [enqueue, initQueue])
        (by simp [enqueue, initQueue])))


/-! ## Claim C2 -/

/-- Claim C2 (refuted — code bug): with ceiling 2, no job running and one
job queued, an exception raised in the admission iteration right after the
permit is acquired leaves the semaphore counter at 1: the
`if self.semaphore.locked()` guard sees a non-zero counter and never calls
`release()`, so the acquired permit is leaked (no running job and no
in-flight task holds it, yet the counter never returns to 2).  The handler
does mark the job `Failed`, stamp its completion time, pop it from the
queued-index, and the loop goes on. -/
theorem admission_exception_leaks_permit :
    ((process_queue_exception_step (enqueue (initQueue 2) sampleRequest 0).1 3).2.map
        QueuedTest.status = some TestStatus.failed) ∧
    ((process_queue_exception_step (enqueue (initQueue 2) sampleRequest 0).1 3).2.map
        QueuedTest.completed_at = some (some 3)) ∧
    (process_queue_exception_step (enqueue (initQueue 2) sampleRequest 0).1 3).1.queued_tests = [] ∧
    (process_queue_exception_step (enqueue (initQueue 2) sampleRequest 0).1 3).1.running_tests = [] ∧
    (process_queue_exception_step (enqueue (initQueue 2) sampleRequest 0).1 3).1.inflight = [] ∧
    (process_queue_exception_step (enqueue (initQueue 2) sampleRequest 0).1 3).1.semValue = 1 ∧
    ¬ (process_queue_exception_step (enqueue (initQueue 2) sampleRequest 0).1 3).1.semValue = 2 := by
  refine ⟨rfl, rfl, ?_, rfl, rfl, rfl, by decide⟩
  simp [process_queue_exception_step, enqueue, initQueue, dictInsert, dictPop]

/-! ## Claim C3 -/

theorem dictGet_dictInsert_self {α : Type} (d : List (String × α)) (k : String) (v : α) :
    dictGet (dictInsert d k v) k = some v := by
  induction d with
  | nil => simp [dictInsert, dictGet, List.find?]
  | cons p rest ih =>
      obtain ⟨k₀, v₀⟩ := p
      by_cases h : k₀ = k
      · simp [dictInsert, h, dictGet, List.find?]
      · simpa [dictInsert, h, dictGet, List.find?_cons, h] using ih

theorem dictGet_dictPop_ne {α : Type} (d : List (String × α)) {k e : String}
    (h : k ≠ e) : dictGet (dictPop d e) k = dictGet d k := by
  induction d with
  | nil => simp [dictPop, dictGet]
  | cons p rest ih =>
      by_cases hpe : p.1 = e
      · have hpk : (p.1 = k) = False := by simp [hpe, Ne.symm h]
        have hdrop : dictPop (p :: rest) e = dictPop rest e := by
          simp [dictPop, List.filter_cons, hpe]
        rw [hdrop, ih]
        simp [dictGet, List.find?_cons, hpk]
      · have hkeep : dictPop (p :: rest) e = p :: dictPop rest e := by
          simp [dictPop, List.filter_cons, hpe]
        rw [hkeep]
        by_cases hpk : p.1 = k
        · simp [dictGet, List.find?_cons, hpk]
        · simp only [dictGet, List.find?_cons] at ih ⊢
          simp [hpk, ih]


/-- Claim C3: for every execution unit launched for an admitted job, on both
exit paths of the test runner (`success = true` for a normal return,
`success = false` for a raised exception) the cleanup sets the job to
`Completed` resp. `Failed`, stamps `completed_at`, removes the job from the
running-index, inserts it into the completed-history, and releases the
concurrency permit.  The two hypotheses state that the completed-history is
within its capacity and that the clock is monotone (no stored completion
time exceeds `now`), both true of every reachable state. -/
theorem cleanup_runs_on_every_exit_path (q : TestQueue) (t : QueuedTest)
    (success : Bool) (now : ℕ)
    (hlen : q.completed_tests.length ≤ 100)
    (hts : ∀ p ∈ q.completed_tests, completedKey p.2 ≤ now) :
    (∃ t', dictGet (run_test_with_cleanup q t success now).completed_tests t.request_id
        = some t' ∧
      t'.status = (if success then TestStatus.completed else TestStatus.failed) ∧
      t'.completed_at = some now) ∧
    t.request_id ∉ dkeys (run_test_with_cleanup q t success now).running_tests ∧
    (run_test_with_cleanup q t success now).semValue = q.semValue + 1 := by
  refine ⟨?_, not_mem_dkeys_dictPop _ _, rfl⟩
  simp only [run_test_with_cleanup]
  by_cases hbig : 100 <
      (dictInsert q.completed_tests t.request_id
        { t with status := if success then TestStatus.completed else TestStatus.failed,
                 completed_at := some now }).length
  · have hnotmem : t.request_id ∉ dkeys q.completed_tests := by
      intro hmem
      rw [length_dictInsert, if_pos hmem] at hbig
      omega
    have happ := dictInsert_of_not_mem
      (d := q.completed_tests) (k := t.request_id)
      { t with status := if success then TestStatus.completed else TestStatus.failed,
               completed_at := some now } hnotmem
    have hne : q.completed_tests ≠ [] := by
      intro he
      rw [he] at hbig
      simp [dictInsert] at hbig
    have hle : ∀ x ∈ q.completed_tests,
        completedKey x.2 ≤ completedKey
          { t with status := if success then TestStatus.completed else TestStatus.failed,
                   completed_at := some now } := by
      intro x hx
      simpa [completedKey] using hts x hx
    obtain ⟨p, hp, heq⟩ := minKeyBy_append_of_le completedKey hne hle
    rw [if_pos hbig, happ, heq]
    have hpne : t.request_id ≠ p.1 := by
      intro hcontra
      exact hnotmem (hcontra ▸ List.mem_map_of_mem Prod.fst hp)
    rw [← happ, dictGet_dictPop_ne _ hpne, dictGet_dictInsert_self]
    exact ⟨_, rfl, rfl, rfl⟩
  · rw [if_neg hbig, dictGet_dictInsert_self]
    exact ⟨_, rfl, rfl, rfl⟩

/-- The job object stored in the running-index after the sample admission. -/
def sampleRunning : QueuedTest :=
  { request := sampleRequest
    request_id := generate_request_id sampleRequest
    status := .running
    queued_at := 0
    started_at := some 1 }

/-- Witness for C3: the cleanup conclusion holds at a concrete state with the
sample job admitted and its unit failing at time 5. -/
theorem cleanup_runs_on_every_exit_path_witness :
    (∃ t', dictGet (run_test_with_cleanup
        (process_queue_admission (enqueue (initQueue 2) sampleRequest 0).1 1)
        sampleRunning false 5).completed_tests sampleRunning.request_id = some t' ∧
      t'.status = (if false then TestStatus.completed else TestStatus.failed) ∧
      t'.completed_at = some 5) ∧
    sampleRunning.request_id ∉ dkeys (run_test_with_cleanup
        (process_queue_admission (enqueue (initQueue 2) sampleRequest 0).1 1)
        sampleRunning false 5).running_tests ∧
    (run_test_with_cleanup
        (process_queue_admission (enqueue (initQueue 2) sampleRequest 0).1 1)
        sampleRunning false 5).semValue =
      (process_queue_admission (enqueue (initQueue 2) sampleRequest 0).1 1).semValue + 1 :=
  cleanup_runs_on_every_exit_path _ _ _ _
    (by simp [process_queue_admission, enqueue, initQueue])
    (by simp [process_queue_admission, enqueue, initQueue])


/-! ## Claim C4 -/

/-- The completed-history right after
`self.completed_tests[queued_test.request_id] = queued_test` inside
`_run_test_with_cleanup`, before the capacity check. -/
def completedAfterInsert (q : TestQueue) (t : QueuedTest) (success : Bool)
    (now : ℕ) : List (String × QueuedTest) :=
  dictInsert q.completed_tests t.request_id
    { t with
        status := if success then TestStatus.completed else TestStatus.failed
        completed_at := some now }

/-- Claim C4: every reachable state holds at most 100 completed entries, a
cleanup step preserves the bound, and whenever inserting the completed job
would exceed the capacity, exactly one entry is evicted — the first entry
attaining the smallest completion timestamp. -/
theorem completed_history_capacity {m : ℕ} {q : TestQueue} (h : Reachable m q) :
    q.completed_tests.length ≤ 100 ∧
    ∀ (t : QueuedTest) (success : Bool) (now : ℕ),
      (run_test_with_cleanup q t success now).completed_tests.length ≤ 100 ∧
      (100 < (completedAfterInsert q t success now).length →
        ∃ p ∈ completedAfterInsert q t success now,
          minKeyBy (completedAfterInsert q t success now) completedKey = some p.1 ∧
          (∀ x ∈ completedAfterInsert q t success now,
            completedKey p.2 ≤ completedKey x.2) ∧
          (run_test_with_cleanup q t success now).completed_tests =
            dictPop (completedAfterInsert q t success now) p.1 ∧
          (run_test_with_cleanup q t success now).completed_tests.length =
            (completedAfterInsert q t success now).length - 1) := by
  obtain ⟨-, -, -, h4, h5, -⟩ := reachable_inv h
  refine ⟨h5, fun t success now => ?_⟩
  have hinsnodup : (dkeys (completedAfterInsert q t success now)).Nodup :=
    nodup_dkeys_dictInsert _ _ h4
  have hinslen : (completedAfterInsert q t success now).length ≤
      q.completed_tests.length + 1 := by
    rw [completedAfterInsert, length_dictInsert]
    by_cases hmem : t.request_id ∈ dkeys q.completed_tests <;> simp [hmem]
  by_cases hbig : 100 < (completedAfterInsert q t success now).length
  · have hne : completedAfterInsert q t success now ≠ [] := by
      intro he
      rw [he] at hbig
      simp at hbig
    obtain ⟨p, hp, heq, hmin⟩ := minKeyBy_spec completedKey hne
    have hres : (run_test_with_cleanup q t success now).completed_tests =
        dictPop (completedAfterInsert q t success now) p.1 := by
      simp only [run_test_with_cleanup, completedAfterInsert] at *
      rw [if_pos hbig, heq]
    have hklen : (dictPop (completedAfterInsert q t success now) p.1).length =
        (completedAfterInsert q t success now).length - 1 :=
      length_dictPop_of_mem hinsnodup (List.mem_map_of_mem Prod.fst hp)
    refine ⟨?_, ?_⟩
    · rw [hres, hklen]
      omega
    · intro _
      exact ⟨p, hp, heq, hmin, hres, by rw [hres, hklen]⟩
  · have hres : (run_test_with_cleanup q t success now).completed_tests =
        completedAfterInsert q t success now := by
      simp only [run_test_with_cleanup, completedAfterInsert] at *
      rw [if_neg hbig]
    exact ⟨by rw [hres]; omega, fun hcontra => absurd hcontra hbig⟩

/-- Witness for C4: the capacity bound instantiated at a concrete reachable
state (a fresh queue with ceiling 2, one job submitted). -/
theorem completed_history_capacity_witness :
    (enqueue (initQueue 2) sampleRequest 0).1.completed_tests.length ≤ 100 ∧
    ∀ (t : QueuedTest) (success : Bool) (now : ℕ),
      (run_test_with_cleanup (enqueue (initQueue 2) sampleRequest 0).1
          t success now).completed_tests.length ≤ 100 ∧
      (100 < (completedAfterInsert (enqueue (initQueue 2) sampleRequest 0).1
          t success now).length →
        ∃ p ∈ completedAfterInsert (enqueue (initQueue 2) sampleRequest 0).1
            t success now,
          minKeyBy (completedAfterInsert (enqueue (initQueue 2) sampleRequest 0).1
            t success now) completedKey = some p.1 ∧
          (∀ x ∈ completedAfterInsert (enqueue (initQueue 2) sampleRequest 0).1
              t success now,
            completedKey p.2 ≤ completedKey x.2) ∧
          (run_test_with_cleanup (enqueue (initQueue 2) sampleRequest 0).1
              t success now).completed_tests =
            dictPop (completedAfterInsert (enqueue (initQueue 2) sampleRequest 0).1
              t success now) p.1 ∧
          (run_test_with_cleanup (enqueue (initQueue 2) sampleRequest 0).1
              t success now).completed_tests.length =
            (completedAfterInsert (enqueue (initQueue 2) sampleRequest 0).1
              t success now).length - 1) :=
  completed_history_capacity
    (Reachable.step Reachable.init (Step.enqueueStep (initQueue 2) sampleRequest 0))


/-! ## Claim C5 -/

/-- Claim C5: the fingerprint is a pure function of the request parameters
and is invariant under permutation of the model list; every other field
(test kind, endpoint, credential, duration, failure threshold, interval) is
an input to the digest via the canonical serialization. -/
theorem generate_request_id_model_order_invariant (r1 r2 : RunTestRequest)
    (hperm : r1.models.Perm r2.models)
    (hdep : r1.deployment_url = r2.deployment_url)
    (hkey : r1.api_key = r2.api_key)
    (hsuite : r1.test_suite = r2.test_suite)
    (hdur : r1.duration_hours = r2.duration_hours)
    (hfail : r1.max_failure_rate = r2.max_failure_rate)
    (hint : r1.request_interval_seconds = r2.request_interval_seconds) :
    generate_request_id r1 = generate_request_id r2 := by
  have hsorted : sortedModels r1.models = sortedModels r2.models := by
    unfold sortedModels
    refine List.eq_of_perm_of_sorted ?_
      (List.sorted_insertionSort _ _) (List.sorted_insertionSort _ _)
    exact ((List.perm_insertionSort _ _).trans hperm).trans
      (List.perm_insertionSort _ _).symm
  unfold generate_request_id params_json
  rw [hsorted, hdep, hkey, hsuite, hdur, hfail, hint]

/-- Witness for C5: two concrete requests that differ only in the order of
their two models receive the same fingerprint. -/
theorem generate_request_id_model_order_invariant_witness :
    generate_request_id
        { deployment_url := "https://test.com", api_key := "sk-key",
          test_suite := "TestOAIAzureRelease", models := ["gpt-4", "gpt-3.5-turbo"] } =
      generate_request_id
        { deployment_url := "https://test.com", api_key := "sk-key",
          test_suite := "TestOAIAzureRelease", models := ["gpt-3.5-turbo", "gpt-4"] } :=
  generate_request_id_model_order_invariant _ _
    (by decide) rfl rfl rfl rfl rfl rfl

/-! ## Claim C6 (`server.py run_test`) -/

/-- `TEST_SUITE_REGISTRY` keys from `models.py`. -/
def TEST_SUITE_REGISTRY : List String :=
  ["TestOAIAzureRelease", "TestMockSingleRequest"]

/-- The error responses `run_test` can raise before enqueueing. -/
inductive RunTestError where
  | unknownSuite (test_suite : String)
  | duplicateConflict (info : Option DuplicateInfo)
  | slackNotConfigured
  deriving DecidableEq, Repr

/-- The accepted-submission response assembled at the end of `run_test`. -/
structure RunTestAccepted where
  status : String
  test_name : String
  request_id : String
  queue_position : ℕ
  currently_running : ℕ
  deriving DecidableEq, Repr

/-- `server.py run_test`: registry check, duplicate check (conflict carries
`get_duplicate_info`), Slack-configuration check, then enqueue and report.
Returns the queue state after the call alongside the HTTP-level outcome. -/
def run_test (q : TestQueue) (slackConfigured : Bool) (request : RunTestRequest)
    (now : ℕ) : TestQueue × Except RunTestError RunTestAccepted :=
  if request.test_suite ∉ TEST_SUITE_REGISTRY then
    (q, .error (.unknownSuite request.test_suite))
  else if is_duplicate q request then
    (q, .error (.duplicateConflict (get_duplicate_info q request)))
  else if !slackConfigured then
    (q, .error .slackNotConfigured)
  else
    let qt := enqueue q request now
    let qs := get_queue_status qt.1
    let status_message := if statusValue qt.2.status = "running" then "started" else "queued"
    (qt.1,
     .ok { status := status_message
           test_name := request.test_suite
           request_id := qt.2.request_id
           queue_position := qs.queued
           currently_running := qs.currently_running })

/-- Claim C6: submitting parameters whose fingerprint matches a job that is
currently queued or running fails with a conflict carrying the existing
job's identity, state and relevant timestamp (started-at when running,
queued-at when queued), and the queue state is unchanged — no job is
created, enqueued or merged. -/
theorem duplicate_submission_is_conflict (q : TestQueue) (slackConfigured : Bool)
    (request : RunTestRequest) (now : ℕ)
    (hreg : request.test_suite ∈ TEST_SUITE_REGISTRY)
    (hdup : is_duplicate q request = true) :
    (run_test q slackConfigured request now).1 = q ∧
    ∃ info, (run_test q slackConfigured request now).2 =
        .error (.duplicateConflict (some info)) ∧
      ((∃ t, dictGet q.running_tests (generate_request_id request) = some t ∧
          info = .runningInfo (generate_request_id request) (statusValue t.status)
            t.started_at) ∨
       (dictGet q.running_tests (generate_request_id request) = none ∧
        ∃ t, dictGet q.queued_tests (generate_request_id request) = some t ∧
          info = .queuedInfo (generate_request_id request) (statusValue t.status)
            t.queued_at)) := by
  have hrun : run_test q slackConfigured request now =
      (q, .error (.duplicateConflict (get_duplicate_info q request))) := by
    rw [run_test, if_neg (by simpa using hreg), if_pos hdup]
  refine ⟨by rw [hrun], ?_⟩
  match hr : dictGet q.running_tests (generate_request_id request) with
  | some t =>
      refine ⟨.runningInfo (generate_request_id request) (statusValue t.status)
        t.started_at, ?_, Or.inl ⟨t, rfl, rfl⟩⟩
      rw [hrun]
      simp only [get_duplicate_info, hr]
  | none =>
      match hq : dictGet q.queued_tests (generate_request_id request) with
      | some t =>
          refine ⟨.queuedInfo (generate_request_id request) (statusValue t.status)
            t.queued_at, ?_, Or.inr ⟨rfl, t, rfl, rfl⟩⟩
          rw [hrun]
          simp only [get_duplicate_info, hr, hq]
      | none =>
          rw [is_duplicate, hr, hq] at hdup
          simp at hdup

/-- Witness for C6: resubmitting the sample request while its job is queued
yields the conflict outcome and leaves the state untouched. -/
theorem duplicate_submission_is_conflict_witness :
    (run_test (enqueue (initQueue 2) sampleRequest 0).1 true sampleRequest 1).1 =
      (enqueue (initQueue 2) sampleRequest 0).1 ∧
    ∃ info, (run_test (enqueue (initQueue 2) sampleRequest 0).1 true sampleRequest 1).2 =
        .error (.duplicateConflict (some info)) ∧
      ((∃ t, dictGet (enqueue (initQueue 2) sampleRequest 0).1.running_tests
            (generate_request_id sampleRequest) = some t ∧
          info = .runningInfo (generate_request_id sampleRequest)
            (statusValue t.status) t.started_at) ∨
       (dictGet (enqueue (initQueue 2) sampleRequest 0).1.running_tests
          (generate_request_id sampleRequest) = none ∧
        ∃ t, dictGet (enqueue (initQueue 2) sampleRequest 0).1.queued_tests
            (generate_request_id sampleRequest) = some t ∧
          info = .queuedInfo (generate_request_id sampleRequest)
            (statusValue t.status) t.queued_at)) :=
  duplicate_submission_is_conflict _ _ _ _ (by decide) (by decide)


/-! ## Claim C7 (`test_oai_azure_release.py` statistics) -/

/-- One probe attempt as recorded by `_make_request` — the fields the
statistics read. -/
structure OAIAttempt where
  success : Bool
  duration_seconds : ℚ
  deriving DecidableEq, Repr

/-- Return value of `TestOAIAzureRelease._calculate_model_statistics`. -/
structure ModelStatistics where
  total_requests : ℕ
  successes : ℕ
  failures : ℕ
  failure_rate : ℚ
  failure_rate_percent : ℚ
  avg_duration_seconds : ℚ
  deriving DecidableEq, Repr

def _calculate_model_statistics (results : List OAIAttempt) : ModelStatistics :=
  let successes := (results.filter (fun r => r.success)).length
  let failures := results.length - successes
  let total := results.length
  let failure_rate : ℚ := if 0 < total then (failures : ℚ) / (total : ℚ) else 0
  let avg_duration : ℚ :=
    if 0 < total then ((results.map (fun r => r.duration_seconds)).sum) / (total : ℚ) else 0
  { total_requests := total
    successes := successes
    failures := failures
    failure_rate := failure_rate
    failure_rate_percent := failure_rate * 100
    avg_duration_seconds := avg_duration }

/-- `TestOAIAzureRelease._calculate_overall_statistics`: sums the per-model
statistics and derives the overall failure rate
(`total_failures / total_requests` when positive, else `0.0`).
Returns `(total_requests, total_successes, total_failures, overall_failure_rate)`. -/
def _calculate_overall_statistics (results : List (String × List OAIAttempt)) :
    ℕ × ℕ × ℕ × ℚ :=
  let stats := results.map (fun p => _calculate_model_statistics p.2)
  let total_requests : ℕ := (stats.map (fun s => s.total_requests)).sum
  let total_successes : ℕ := (stats.map (fun s => s.successes)).sum
  let total_failures : ℕ := (stats.map (fun s => s.failures)).sum
  let overall_failure_rate : ℚ :=
    if 0 < total_requests then (total_failures : ℚ) / (total_requests : ℚ) else 0
  (total_requests, total_successes, total_failures, overall_failure_rate)

/-- The slice of the dictionary built by
`TestOAIAzureRelease._calculate_results` that the verdict claims read. -/
structure OAIRunSummary where
  total_requests : ℕ
  total_successes : ℕ
  total_failures : ℕ
  overall_failure_rate : ℚ
  overall_failure_rate_percent : ℚ
  max_failure_rate : ℚ
  test_passed : Bool
  model_statistics : List (String × ModelStatistics)
  deriving DecidableEq, Repr

def _calculate_results (results : List (String × List OAIAttempt))
    (max_failure_rate : ℚ) : OAIRunSummary :=
  let overall := _calculate_overall_statistics results
  { total_requests := overall.1
    total_successes := overall.2.1
    total_failures := overall.2.2.1
    overall_failure_rate := overall.2.2.2
    overall_failure_rate_percent := overall.2.2.2 * 100
    max_failure_rate := max_failure_rate
    test_passed := decide (overall.2.2.2 < max_failure_rate)
    model_statistics := results.map (fun p => (p.1, _calculate_model_statistics p.2)) }

/-- Claim C7: the verdict is the strict comparison
`overall_failure_rate < max_failure_rate`; in particular a run whose overall
failure rate equals the configured maximum fails. -/
theorem verdict_uses_strict_inequality (results : List (String × List OAIAttempt))
    (max_failure_rate : ℚ) :
    ((_calculate_results results max_failure_rate).test_passed = true ↔
      (_calculate_overall_statistics results).2.2.2 < max_failure_rate) ∧
    ((_calculate_overall_statistics results).2.2.2 = max_failure_rate →
      (_calculate_results results max_failure_rate).test_passed = false) := by
  constructor
  · simp [_calculate_results]
  · intro heq
    simp [_calculate_results, heq]

/-- Witness for C7: one model with two attempts, one failing, against a
configured maximum of exactly 1/2 — the rate equals the threshold and the
verdict is `false`. -/
theorem verdict_uses_strict_inequality_witness :
    ((_calculate_results
        [("gpt-4", [{ success := true, duration_seconds := 1 },
                    { success := false, duration_seconds := 2 }])]
        (1/2)).test_passed = true ↔
      (_calculate_overall_statistics
        [("gpt-4", [{ success := true, duration_seconds := 1 },
                    { success := false, duration_seconds := 2 }])]).2.2.2 < 1/2) ∧
    ((_calculate_overall_statistics
        [("gpt-4", [{ success := true, duration_seconds := 1 },
                    { success := false, duration_seconds := 2 }])]).2.2.2 = 1/2 →
      (_calculate_results
        [("gpt-4", [{ success := true, duration_seconds := 1 },
                    { success := false, duration_seconds := 2 }])]
        (1/2)).test_passed = false) :=
  verdict_uses_strict_inequality _ _

/-- The concrete boundary fact behind the C7 witness: the sample run has
overall failure rate exactly 1/2 and the verdict is `false`. -/
theorem verdict_boundary_example :
    (_calculate_overall_statistics
        [("gpt-4", [{ success := true, duration_seconds := 1 },
                    { success := false, duration_seconds := 2 }])]).2.2.2 = 1/2 ∧
    (_calculate_results
        [("gpt-4", [{ success := true, duration_seconds := 1 },
                    { success := false, duration_seconds := 2 }])]
        (1/2)).test_passed = false := by
  constructor
  · norm_num [_calculate_overall_statistics, _calculate_model_statistics]
  · norm_num [_calculate_results, _calculate_overall_statistics, _calculate_model_statistics]


/-! ## Claim C8 (`test_access_group_perf.py _percentile`) -/

/-- Python `int()` on a rational: truncation toward zero. -/
def pyInt (q : ℚ) : ℤ :=
  if 0 ≤ q then ⌊q⌋ else -⌊-q⌋

/-- `_percentile(sorted_data, p)` from `test_access_group_perf.py`:
`k = (len-1)*p`, `f = int(k)`, `c = f+1`; returns the last element when `c`
runs off the end, otherwise the linear interpolation
`sorted_data[f] + (k-f)*(sorted_data[c]-sorted_data[f])`. -/
def _percentile (sorted_data : List ℚ) (p : ℚ) : ℚ :=
  if sorted_data = [] then 0
  else
    let k : ℚ := ((sorted_data.length : ℚ) - 1) * p
    let f : ℤ := pyInt k
    let c : ℤ := f + 1
    if (sorted_data.length : ℤ) ≤ c then sorted_data.getD (sorted_data.length - 1) 0
    else
      sorted_data.getD f.toNat 0 +
        (k - (f : ℚ)) * (sorted_data.getD c.toNat 0 - sorted_data.getD f.toNat 0)

/-- Claim C8: for every non-empty list of durations and percentile
`0 ≤ p ≤ 1`, the percentile function returns
`durations[f] + (k - f) * (durations[c] - durations[f])` with
`k = (n-1)*p`, `f = floor k`, and `c = f+1` clamped to the last index. -/
theorem percentile_linear_interpolation (data : List ℚ) (p : ℚ)
    (hne : data ≠ []) (hp0 : 0 ≤ p) (hp1 : p ≤ 1) :
    _percentile data p =
      data.getD (⌊((data.length : ℚ) - 1) * p⌋.toNat) 0 +
        (((data.length : ℚ) - 1) * p - ((⌊((data.length : ℚ) - 1) * p⌋.toNat : ℕ) : ℚ)) *
          (data.getD (min (⌊((data.length : ℚ) - 1) * p⌋.toNat + 1) (data.length - 1)) 0 -
            data.getD (⌊((data.length : ℚ) - 1) * p⌋.toNat) 0) := by
  have hnpos : 0 < data.length := List.length_pos.mpr hne
  have hn1 : (1 : ℚ) ≤ (data.length : ℚ) := by exact_mod_cast hnpos
  set k : ℚ := ((data.length : ℚ) - 1) * p with hkdef
  have hk0 : 0 ≤ k := mul_nonneg (by linarith) hp0
  have hkle : k ≤ (data.length : ℚ) - 1 := by
    calc k ≤ ((data.length : ℚ) - 1) * 1 :=
          mul_le_mul_of_nonneg_left hp1 (by linarith)
      _ = (data.length : ℚ) - 1 := mul_one _
  have hpy : pyInt k = ⌊k⌋ := if_pos hk0
  have hf0 : 0 ≤ ⌊k⌋ := Int.floor_nonneg.mpr hk0
  have hfloor_le : (⌊k⌋ : ℚ) ≤ k := Int.floor_le k
  have hfle : ⌊k⌋ ≤ (data.length : ℤ) - 1 := by
    have h1 : ⌊k⌋ ≤ ⌊(data.length : ℚ) - 1⌋ := Int.floor_le_floor hkle
    have h2 : ((data.length : ℚ) - 1) = (((data.length : ℤ) - 1 : ℤ) : ℚ) := by
      push_cast
      ring
    rw [h2, Int.floor_intCast] at h1
    exact h1
  have htoNat : ((⌊k⌋.toNat : ℕ) : ℚ) = (⌊k⌋ : ℚ) := by
    have := Int.toNat_of_nonneg hf0
    exact_mod_cast congrArg (fun z : ℤ => (z : ℚ)) this
  rw [_percentile, if_neg hne]
  simp only [hpy]
  by_cases hc : (data.length : ℤ) ≤ ⌊k⌋ + 1
  · rw [if_pos hc]
    have hfeq : ⌊k⌋ = (data.length : ℤ) - 1 := by omega
    have hkeq : k = (data.length : ℚ) - 1 := by
      have : ((data.length : ℚ) - 1) ≤ k := by
        calc ((data.length : ℚ) - 1) = (((data.length : ℤ) - 1 : ℤ) : ℚ) := by
              push_cast
              ring
          _ = (⌊k⌋ : ℚ) := by rw [hfeq]
          _ ≤ k := hfloor_le
      linarith
    have hfN : ⌊k⌋.toNat = data.length - 1 := by omega
    have hzero : k - ((⌊k⌋.toNat : ℕ) : ℚ) = 0 := by
      rw [htoNat, hfeq, hkeq]
      push_cast [Nat.cast_sub]
      ring
    rw [hzero, zero_mul, add_zero, hfN]
  · rw [if_neg hc]
    have hcN : (⌊k⌋ + 1).toNat = ⌊k⌋.toNat + 1 := by omega
    have hmin : min (⌊k⌋.toNat + 1) (data.length - 1) = ⌊k⌋.toNat + 1 := by omega
    rw [hcN, hmin, htoNat]

/-- Witness for C8: at `[1,2,3,4,5]` the hypotheses hold and the percentile
function matches the spec formula; concretely p50 equals 3 and p95 and p99
interpolate strictly between the two largest values (24/5 = 4.8 and
124/25 = 4.96). -/
theorem percentile_linear_interpolation_witness :
    (([1, 2, 3, 4, 5] : List ℚ) ≠ [] ∧ (0 : ℚ) ≤ 95/100 ∧ (95/100 : ℚ) ≤ 1) ∧
    (_percentile [1, 2, 3, 4, 5] (95/100) =
      ([1, 2, 3, 4, 5] : List ℚ).getD
          (⌊((([1, 2, 3, 4, 5] : List ℚ).length : ℚ) - 1) * (95/100)⌋.toNat) 0 +
        (((([1, 2, 3, 4, 5] : List ℚ).length : ℚ) - 1) * (95/100) -
          ((⌊((([1, 2, 3, 4, 5] : List ℚ).length : ℚ) - 1) * (95/100)⌋.toNat : ℕ) : ℚ)) *
          (([1, 2, 3, 4, 5] : List ℚ).getD
              (min (⌊((([1, 2, 3, 4, 5] : List ℚ).length : ℚ) - 1) * (95/100)⌋.toNat + 1)
                (([1, 2, 3, 4, 5] : List ℚ).length - 1)) 0 -
            ([1, 2, 3, 4, 5] : List ℚ).getD
              (⌊((([1, 2, 3, 4, 5] : List ℚ).length : ℚ) - 1) * (95/100)⌋.toNat) 0)) ∧
    _percentile [1, 2, 3, 4, 5] (1/2) = 3 ∧
    _percentile [1, 2, 3, 4, 5] (95/100) = 24/5 ∧
    _percentile [1, 2, 3, 4, 5] (99/100) = 124/25 ∧
    (4 : ℚ) < 24/5 ∧ (24/5 : ℚ) < 5 ∧ (4 : ℚ) < 124/25 ∧ (124/25 : ℚ) < 5 := by
  refine ⟨⟨by simp, by norm_num, by norm_num⟩,
    percentile_linear_interpolation [1, 2, 3, 4, 5] (95/100) (by simp)
      (by norm_num) (by norm_num),
    ?_, ?_, ?_, by norm_num, by norm_num, by norm_num, by norm_num⟩
  · norm_num [_percentile, pyInt]
    simp
  · norm_num [_percentile, pyInt]
    simp
    norm_num
  · norm_num [_percentile, pyInt]
    simp
    norm_num


/-! ## Claim C9 (`TestOAIAzureRelease._make_request`) -/

/-- Outcome of `self.client.post(...)` as seen by `_make_request`: either an
HTTP response — status code, the parsed JSON body when `response.json()`
succeeds (`none` when parsing raises), and the raw text — or a transport
exception with its message. -/
inductive HttpOutcome where
  | response (status_code : ℕ) (parsedBody : Option String) (text : String)
  | transportEx (message : String)
  deriving DecidableEq, Repr

/-- The error payload attached to a failed attempt: the parse-failure
message for a 200 body that does not parse, the parsed error body or the
raw text for a non-200 response, or the transport exception message. -/
inductive AttemptErrorPayload where
  | parseFailure (message : String)
  | parsedBody (data : String)
  | rawText (text : String)
  | exceptionMessage (message : String)
  deriving DecidableEq, Repr

/-- The attempt-record dictionary `_make_request` returns. -/
structure OAIAttemptRecord where
  model : String
  status_code : Option ℕ
  success : Bool
  duration_seconds : ℚ
  error : Option AttemptErrorPayload
  response_data : Option String
  deriving DecidableEq, Repr

def HTTP_SUCCESS_STATUS_CODE : ℕ := 200

/-- `_parse_successful_response`: starts as a success and downgrades to a
failure when `response.json()` raises. -/
def _parse_successful_response (status_code : ℕ) (parsedBody : Option String)
    (request_duration : ℚ) (model : String) : OAIAttemptRecord :=
  match parsedBody with
  | some data =>
      { model := model, status_code := some status_code, success := true
        duration_seconds := request_duration, error := none
        response_data := some data }
  | none =>
      { model := model, status_code := some status_code, success := false
        duration_seconds := request_duration
        error := some (.parseFailure "Failed to parse response")
        response_data := none }

/-- `_parse_error_response`: non-200 response, error is the parsed body or
the raw text. -/
def _parse_error_response (status_code : ℕ) (parsedBody : Option String)
    (text : String) (request_duration : ℚ) (model : String) : OAIAttemptRecord :=
  { model := model, status_code := some status_code, success := false
    duration_seconds := request_duration
    error := some (match parsedBody with
      | some data => .parsedBody data
      | none => .rawText text)
    response_data := none }

/-- `_create_error_result`: the request itself raised. -/
def _create_error_result (message : String) (request_duration : ℚ)
    (model : String) : OAIAttemptRecord :=
  { model := model, status_code := none, success := false
    duration_seconds := request_duration
    error := some (.exceptionMessage message)
    response_data := none }

/-- `_make_request` dispatch on the outcome of the HTTP call. -/
def _make_request (model : String) (outcome : HttpOutcome)
    (request_duration : ℚ) : OAIAttemptRecord :=
  match outcome with
  | .response status_code parsedBody text =>
      if status_code = HTTP_SUCCESS_STATUS_CODE then
        _parse_successful_response status_code parsedBody request_duration model
      else
        _parse_error_response status_code parsedBody text request_duration model
  | .transportEx message => _create_error_result message request_duration model

/-- Claim C9: an attempt is recorded as a success iff the HTTP status is 200
and the body parses as JSON; every other outcome is a failure carrying the
appropriate payload — in particular a 200 response whose body fails to
parse is recorded as a failure. -/
theorem attempt_success_iff_200_and_parsed (model : String) (outcome : HttpOutcome)
    (request_duration : ℚ) :
    ((_make_request model outcome request_duration).success = true ↔
      ∃ body text, outcome = .response 200 (some body) text) ∧
    (∀ text, outcome = .response 200 none text →
      (_make_request model outcome request_duration).success = false ∧
      ∃ msg, (_make_request model outcome request_duration).error =
        some (.parseFailure msg)) ∧
    (∀ status_code body text, outcome = .response status_code (some body) text →
      status_code ≠ 200 →
      (_make_request model outcome request_duration).success = false ∧
      (_make_request model outcome request_duration).error =
        some (.parsedBody body)) ∧
    (∀ status_code text, outcome = .response status_code none text →
      status_code ≠ 200 →
      (_make_request model outcome request_duration).success = false ∧
      (_make_request model outcome request_duration).error = some (.rawText text)) ∧
    (∀ message, outcome = .transportEx message →
      (_make_request model outcome request_duration).success = false ∧
      (_make_request model outcome request_duration).error =
        some (.exceptionMessage message)) := by
  refine ⟨?_, ?_, ?_, ?_, ?_⟩
  · constructor
    · intro hsucc
      match outcome with
      | .response status_code parsedBody text =>
          by_cases hst : status_code = HTTP_SUCCESS_STATUS_CODE
          · subst hst
            match parsedBody with
            | some body => exact ⟨body, text, rfl⟩
            | none =>
                simp [_make_request, _parse_successful_response,
                  HTTP_SUCCESS_STATUS_CODE] at hsucc
          · simp [_make_request, _parse_error_response, hst] at hsucc
      | .transportEx message =>
          simp [_make_request, _create_error_result] at hsucc
    · rintro ⟨body, text, rfl⟩
      simp [_make_request, _parse_successful_response, HTTP_SUCCESS_STATUS_CODE]
  · rintro text rfl
    refine ⟨?_, "Failed to parse response", ?_⟩ <;>
      simp [_make_request, _parse_successful_response, HTTP_SUCCESS_STATUS_CODE]
  · rintro status_code body text rfl hne
    constructor <;>
      simp [_make_request, _parse_error_response, HTTP_SUCCESS_STATUS_CODE, hne]
  · rintro status_code text rfl hne
    constructor <;>
      simp [_make_request, _parse_error_response, HTTP_SUCCESS_STATUS_CODE, hne]
  · rintro message rfl
    constructor <;> simp [_make_request, _create_error_result]

/-- Witness for C9: a 200 response whose body fails to parse is a failed
attempt with a parse-failure payload, and is not counted a success. -/
theorem attempt_success_iff_200_and_parsed_witness :
    ((_make_request "gpt-4" (.response 200 none "not json") 1).success = true ↔
      ∃ body text, (HttpOutcome.response 200 none "not json") =
        .response 200 (some body) text) ∧
    (∀ text, (HttpOutcome.response 200 none "not json") = .response 200 none text →
      (_make_request "gpt-4" (.response 200 none "not json") 1).success = false ∧
      ∃ msg, (_make_request "gpt-4" (.response 200 none "not json") 1).error =
        some (.parseFailure msg)) ∧
    (∀ status_code body text,
      (HttpOutcome.response 200 none "not json") = .response status_code (some body) text →
      status_code ≠ 200 →
      (_make_request "gpt-4" (.response 200 none "not json") 1).success = false ∧
      (_make_request "gpt-4" (.response 200 none "not json") 1).error =
        some (.parsedBody body)) ∧
    (∀ status_code text,
      (HttpOutcome.response 200 none "not json") = .response status_code none text →
      status_code ≠ 200 →
      (_make_request "gpt-4" (.response 200 none "not json") 1).success = false ∧
      (_make_request "gpt-4" (.response 200 none "not json") 1).error =
        some (.rawText text)) ∧
    (∀ message, (HttpOutcome.response 200 none "not json") = .transportEx message →
      (_make_request "gpt-4" (.response 200 none "not json") 1).success = false ∧
      (_make_request "gpt-4" (.response 200 none "not json") 1).error =
        some (.exceptionMessage message)) :=
  attempt_success_iff_200_and_parsed "gpt-4" (.response 200 none "not json") 1

/-! ## Claim C10 (`TestOAIAzureRelease._get_next_model_to_test`) -/

/-- The Python error raised by `model_index % len(self.models)` when the
model list is empty. -/
def ZERO_DIVISION_MESSAGE : String :=
  "ZeroDivisionError: integer division or modulo by zero"

/-- `_get_next_model_to_test`: `self.models[model_index % len(self.models)]`.
On the empty model list the modulo raises `ZeroDivisionError`; otherwise the
index is reduced modulo the length and is always in bounds. -/
def _get_next_model_to_test (models : List String) (model_index : ℕ) :
    Except String String :=
  if hz : models.length = 0 then .error ZERO_DIVISION_MESSAGE
  else .ok (models.get ⟨model_index % models.length, Nat.mod_lt _ (Nat.pos_of_ne_zero hz)⟩)

/-- Claim C10: round-robin selection is total only on non-empty model lists:
for a non-empty list the selected model is `models[i % n]`, an element of
the list; for the empty list — which the request model accepts as a valid
submission — the selection fails with a division-by-zero error on the first
iteration. -/
theorem round_robin_total_only_on_nonempty (models : List String) (model_index : ℕ)
    (hne : models ≠ []) :
    _get_next_model_to_test models model_index =
        .ok (models.getD (model_index % models.length) "") ∧
    models.getD (model_index % models.length) "" ∈ models ∧
    _get_next_model_to_test [] model_index = .error ZERO_DIVISION_MESSAGE := by
  have hz : models.length ≠ 0 := fun h => hne (List.length_eq_zero.mp h)
  have hlt : model_index % models.length < models.length :=
    Nat.mod_lt _ (Nat.pos_of_ne_zero hz)
  have hgetD : models.getD (model_index % models.length) "" =
      models.get ⟨model_index % models.length, hlt⟩ := by
    rw [List.getD_eq_getElem?_getD, List.getElem?_eq_getElem hlt]
    rfl
  refine ⟨?_, ?_, by simp [_get_next_model_to_test, ZERO_DIVISION_MESSAGE]⟩
  · rw [_get_next_model_to_test, dif_neg hz, hgetD]
  · rw [hgetD]
    exact List.get_mem models _ hlt


/-- Witness for C10: with two models and iteration index 3 the selection
wraps to index 1 and returns a member of the list; on the empty list it
fails with the division-by-zero error. -/
theorem round_robin_total_only_on_nonempty_witness :
    _get_next_model_to_test ["gpt-4", "gpt-3.5-turbo"] 3 =
        .ok ((["gpt-4", "gpt-3.5-turbo"] : List String).getD
          (3 % (["gpt-4", "gpt-3.5-turbo"] : List String).length) "") ∧
    (["gpt-4", "gpt-3.5-turbo"] : List String).getD
        (3 % (["gpt-4", "gpt-3.5-turbo"] : List String).length) "" ∈
      ["gpt-4", "gpt-3.5-turbo"] ∧
    _get_next_model_to_test [] 3 = .error ZERO_DIVISION_MESSAGE :=
  round_robin_total_only_on_nonempty ["gpt-4", "gpt-3.5-turbo"] 3 (by simp)

end Observatory
